import Mathlib

/-!
Verification of the page-aware sentence extraction pipeline of `txtizepdf`
(`utils/pdf_extractor.py`), shallowly embedded over `List Char`.

Python strings are modelled as `List Char`; PyMuPDF page objects are modelled
by the read-only accessors the code consults (plain text, block dictionary,
image list, page rectangle); floats are modelled as rationals.
-/

namespace TxtizePdf

/-- Python strings, modelled as lists of characters. -/
abbrev Str := List Char

/-- Python whitespace for `str.strip` / regex `\s` (ASCII part:
space, tab, newline, carriage return, vertical tab, form feed). -/
def pyWs (c : Char) : Bool :=
  c = ' ' || c = '\t' || c = '\n' || c = '\r' || c = '\x0b' || c = '\x0c'

/-- The sentence-terminal characters of the regex class `[.!?…。？！]`
used by `normalize_line_breaks`, `split_into_sentences` and the
carryover check of `extract_sentences_with_page`. -/
def isTerm (c : Char) : Bool :=
  c = '.' || c = '!' || c = '?' || c = '…' || c = '。' || c = '？' || c = '！'

/-- Line-break characters for Python `str.splitlines` (the common ones;
the rarer control-character breaks only introduce blank lines, which `normalize_line_breaks`
skips anyway). -/
def isBreak (c : Char) : Bool :=
  c = '\n' || c = '\r'

/-- Left part of Python `str.strip`: drop leading whitespace. -/
def ltrim (s : Str) : Str := s.dropWhile pyWs

/-- Right part of Python `str.strip`: drop trailing whitespace. -/
def rtrim (s : Str) : Str := (s.reverse.dropWhile pyWs).reverse

/-- Python `str.strip()`. -/
def strip (s : Str) : Str := rtrim (ltrim s)

/-- Prepend a character to the first piece of a piece list
(used by the structural splitters below). -/
def cons1 (c : Char) : List Str → List Str
  | [] => [[c]]
  | p :: ps => (c :: p) :: ps

/-- Python `str.splitlines()` (restricted to `\n`/`\r` breaks): the final
break terminates the last line without creating a trailing empty line. -/
def splitlines : Str → List Str
  | [] => []
  | c :: rest => if isBreak c then [] :: splitlines rest else cons1 c (splitlines rest)

/-- One iteration of the line loop of `normalize_line_breaks`
(`utils/pdf_extractor.py:106-120`): strip the line; skip it if blank;
if it ends with a hyphen append it with the hyphen removed (no separator);
if it ends with a terminal character append it plus a newline;
otherwise append it plus a single space. -/
def normLine (acc : Str) (line : Str) : Str :=
  let l := strip line
  match l.getLast? with
  | none => acc
  | some c =>
    if c = '-' then acc ++ l.dropLast
    else if isTerm c then acc ++ l ++ ['\n']
    else acc ++ l ++ [' ']

/-- Embedding of `normalize_line_breaks` (`utils/pdf_extractor.py:97-121`). -/
def normalize_line_breaks (raw : Str) : Str :=
  (splitlines raw).foldl normLine []

/-- The splitting pass of `re.split(r'(?<=[.!?…。？！])\s+', text)`:
walking left to right, a new piece starts at a whitespace character whose
predecessor is a terminal character.  The regex consumes the whole greedy
whitespace run at a split point; here only its first character is dropped
and the rest is left as leading whitespace of the next piece, which the
subsequent `strip` in `split_into_sentences` removes — the composite
function agrees with the Python composite (no further split can occur
inside the run, since whitespace is not a terminal character). -/
def sentAux : Bool → Str → List Str
  | _, [] => [[]]
  | prevTerm, c :: rest =>
    if prevTerm && pyWs c then [] :: sentAux false rest
    else cons1 c (sentAux (isTerm c) rest)

/-- Embedding of `split_into_sentences` (`utils/pdf_extractor.py:124-139`): split at
whitespace following a terminal character, strip each piece, drop pieces
that become empty. -/
def split_into_sentences (text : Str) : List Str :=
  ((sentAux false text).map strip).filter (fun s => !s.isEmpty)

/-! ## Page-skip-string parsing (`parse_skip_pages`) -/

/-- Decimal digit run to a natural number. -/
def digitsToNat (s : Str) : ℕ :=
  s.foldl (fun a c => 10 * a + (c.toNat - 48)) 0

/-- Python `int(s)` on an already-stripped string (ASCII decimal digits
with an optional sign; `none` models the `ValueError` the source catches). -/
def parseInt : Str → Option ℤ
  | '+' :: rest => if rest ≠ [] ∧ rest.all Char.isDigit then some (digitsToNat rest) else none
  | '-' :: rest => if rest ≠ [] ∧ rest.all Char.isDigit then some (-(digitsToNat rest : ℤ)) else none
  | s => if s ≠ [] ∧ s.all Char.isDigit then some (digitsToNat s) else none

/-- Python `str.split(',')`: always at least one token; empty tokens kept. -/
def splitOnComma : Str → List Str
  | [] => [[]]
  | c :: rest => if c = ',' then [] :: splitOnComma rest else cons1 c (splitOnComma rest)

/-- The loop body of `parse_skip_pages` (`utils/pdf_extractor.py:16-34`)
for one comma-separated token: strip it; skip it if empty; if it contains
a hyphen, split at the first hyphen into `lo-hi`, parse both sides
(strip again), and add the inclusive range when `lo ≤ hi`, silently
ignoring parse failures; otherwise parse the whole token as an integer,
silently ignoring failures. -/
def token_pages (part : Str) : Finset ℤ :=
  let p := strip part
  if p.isEmpty then ∅
  else if p.contains '-' then
    match parseInt (strip (p.takeWhile (fun c => c ≠ '-'))),
          parseInt (strip ((p.dropWhile (fun c => c ≠ '-')).tail)) with
    | some lo, some hi => if lo ≤ hi then Finset.Icc lo hi else ∅
    | _, _ => ∅
  else
    match parseInt p with
    | some n => {n}
    | none => ∅

/-- Embedding of `parse_skip_pages` (`utils/pdf_extractor.py:9-35`). -/
def parse_skip_pages (s : Str) : Finset ℤ :=
  (splitOnComma s).foldl (fun acc part => acc ∪ token_pages part) ∅

/-! ## Page model

PyMuPDF page objects are read through exactly these accessors:
`page.get_text("text")`, `page.get_text("dict")` (its `blocks` and
`height` entries), `page.get_images(full=True)` and `page.rect`.
Coordinates are modelled as rationals. -/

/-- A bounding box `(x0, y0, x1, y1)`. -/
structure BBox where
  x0 : ℚ
  y0 : ℚ
  x1 : ℚ
  y1 : ℚ
deriving DecidableEq

/-- A text span inside a block line (`span['text']`). -/
structure TextSpan where
  text : Str
deriving DecidableEq

/-- A line of a text block (`block['lines']` entries). -/
structure TextLine where
  spans : List TextSpan
deriving DecidableEq

/-- A content block of `page.get_text("dict")['blocks']`: an optional
bounding box (`'bbox' not in blk` is modelled as `none`), an optional
type (`blk.get('type', -1)`; `0` is a text block), and the nested
line/span text (`blk.get('lines', [])`). -/
structure Block where
  bbox : Option BBox
  typ : Option ℤ
  lines : List TextLine
deriving DecidableEq

/-- The parts of `page.get_text("dict")` the code reads. -/
structure PageDict where
  blocks : List Block
  height : ℚ
deriving DecidableEq

/-- A PDF page through the accessors the code consults.  `rawText` is
`page.get_text("text") or ""`; `width`/`height` are the page rectangle
(PyMuPDF reports the same dimensions in `get_text("dict")`);
`imageCount` is the length of `page.get_images(full=True)`. -/
structure Page where
  rawText : Str
  blocks : List Block
  width : ℚ
  height : ℚ
  imageCount : ℕ
deriving DecidableEq

/-- The call `page.get_text("dict")`, as consulted by the code. -/
def Page.textDict (p : Page) : PageDict := ⟨p.blocks, p.height⟩

/-- Embedding of `remove_header_footer_blocks` (`utils/pdf_extractor.py:38-67`):
drop blocks with no bounding box, blocks entirely above the header band
(`y1 < height * headerRatio`) and blocks entirely below the footer band
(`y0 > height * (1 - footerRatio)`). -/
def remove_header_footer_blocks (pd : PageDict) (headerRatio footerRatio : ℚ) : List Block :=
  let headerLimit := pd.height * headerRatio
  let footerLimit := pd.height * (1 - footerRatio)
  pd.blocks.filter fun blk =>
    match blk.bbox with
    | none => false
    | some b => !(decide (b.y1 < headerLimit)) && !(decide (b.y0 > footerLimit))

/-- Embedding of `compute_text_block_area_ratio` (`utils/pdf_extractor.py:70-94`):
`0` when the page area is non-positive; otherwise the sum over text-type
blocks surviving header/footer removal of `max 0 (x1-x0) * max 0 (y1-y0)`,
divided by the page area.  (The `none` bbox case is unreachable: all
blocks returned by `remove_header_footer_blocks` carry a bounding box.) -/
def compute_text_block_area_ratio (page : Page) (pd : PageDict)
    (headerRatio footerRatio : ℚ) : ℚ :=
  let pageArea := page.width * page.height
  if pageArea ≤ 0 then 0
  else
    let blocks := remove_header_footer_blocks pd headerRatio footerRatio
    let textArea := blocks.foldl (fun acc blk =>
      if blk.typ.getD (-1) = 0 then
        match blk.bbox with
        | some b => acc + max 0 (b.x1 - b.x0) * max 0 (b.y1 - b.y0)
        | none => acc
      else acc) 0
    textArea / pageArea

/-! ## Caption-pattern counting

`re.findall(r"표\s*\d+", raw)` and
`re.findall(r"(Table|Figure)\s*\d+", raw, re.IGNORECASE)` scan left to
right and count non-overlapping matches; a failed attempt advances one
character.  The scan is written with a fuel argument so that it is
structural (and hence evaluates by `decide`); every attempted match
consumes at least one character, so `fuel = s.length` never runs out. -/

/-- After a matched literal: `\s*` then `\d+` (both greedy); returns the
rest of the string on success. -/
def numTail (r : Str) : Option Str :=
  match r.dropWhile pyWs with
  | c :: r2 => if c.isDigit then some (r2.dropWhile Char.isDigit) else none
  | [] => none

/-- Case-insensitive ASCII literal match; returns the rest on success. -/
def ciLiteral : Str → Str → Option Str
  | [], s => some s
  | _ :: _, [] => none
  | p :: ps, c :: cs => if c.toLower = p then ciLiteral ps cs else none

/-- One match attempt of `표\s*\d+` at the current position. -/
def tryKo : Str → Option Str
  | c :: rest => if c = '표' then numTail rest else none
  | [] => none

/-- One match attempt of `(Table|Figure)\s*\d+` (case-insensitive) at the
current position; the alternatives start with different letters, so
regex backtracking cannot mix them. -/
def tryEn (s : Str) : Option Str :=
  match ciLiteral ['t', 'a', 'b', 'l', 'e'] s with
  | some r => numTail r
  | none =>
    match ciLiteral ['f', 'i', 'g', 'u', 'r', 'e'] s with
    | some r => numTail r
    | none => none

/-- Generic non-overlapping left-to-right match counter (fuelled). -/
def countMatchesF (try1 : Str → Option Str) : ℕ → Str → ℕ
  | 0, _ => 0
  | _ + 1, [] => 0
  | fuel + 1, c :: rest =>
    match try1 (c :: rest) with
    | some r => countMatchesF try1 fuel r + 1
    | none => countMatchesF try1 fuel rest

/-- The count `len(re.findall(r"표\s*\d+", s))`. -/
def countKo (s : Str) : ℕ := countMatchesF tryKo s.length s

/-- The count `len(re.findall(r"(Table|Figure)\s*\d+", s, re.IGNORECASE))`. -/
def countEn (s : Str) : ℕ := countMatchesF tryEn s.length s

/-- Embedding of `should_skip_page` (`utils/pdf_extractor.py:142-189`): the ordered
short-circuit sequence of the five skip checks.  Note that checks 2 and 3
read `page.get_text("text")` (the full page, never header/footer
trimmed), and check 5 recomputes the block dictionary. -/
def should_skip_page (page : Page) (pageNum : ℕ) (skipPages : Finset ℤ)
    (minTextLen : ℕ) (tableThreshold : ℕ) (skipIfImage : Bool)
    (minTextRatio headerRatio footerRatio : ℚ) : Bool :=
  if (pageNum : ℤ) ∈ skipPages then true
  else if (strip page.rawText).length < minTextLen then true
  else if tableThreshold ≤ countKo page.rawText + countEn page.rawText then true
  else if skipIfImage && page.imageCount ≠ 0 then true
  else if compute_text_block_area_ratio page page.textDict headerRatio footerRatio
            < minTextRatio then true
  else false

/-- The configuration record handed to `extract_sentences_with_page`
(every keyword argument except the I/O paths and output format, which
are out of scope). -/
structure FilterConfig where
  skipPages : Finset ℤ
  minTextLen : ℕ
  tableThreshold : ℕ
  skipIfImage : Bool
  minTextRatio : ℚ
  removeHeaderFooter : Bool
  headerRatio : ℚ
  footerRatio : ℚ

/-- The function `should_skip_page` applied with a configuration record
(the argument list of `utils/pdf_extractor.py:262-270`). -/
def shouldSkipCfg (cfg : FilterConfig) (pageNum : ℕ) (page : Page) : Bool :=
  should_skip_page page pageNum cfg.skipPages cfg.minTextLen cfg.tableThreshold
    cfg.skipIfImage cfg.minTextRatio cfg.headerRatio cfg.footerRatio

/-! ## Page text extraction and the assembler -/

/-- The span texts a text-type block contributes in header/footer-removal
mode (`utils/pdf_extractor.py:282-286`): each span text stripped, empties
dropped, in line/span order. -/
def blockLines (blk : Block) : List Str :=
  (blk.lines.map fun ln =>
    (ln.spans.map fun sp => strip sp.text).filter fun t => !t.isEmpty).flatten

/-- The page body text of step 2 of the loop
(`utils/pdf_extractor.py:274-289`): with `remove_header_footer` the
retained text-type blocks' span texts joined by newlines, otherwise
`page.get_text("text") or ""`. -/
def page_raw_text (cfg : FilterConfig) (page : Page) : Str :=
  if cfg.removeHeaderFooter then
    List.intercalate ['\n']
      (((remove_header_footer_blocks page.textDict cfg.headerRatio cfg.footerRatio).filter
          fun blk => blk.typ.getD (-1) = 0).map blockLines).flatten
  else page.rawText

/-- The loop state of `extract_sentences_with_page`: the records
accumulated so far, `carryover_fragment` (empty = no fragment) and
`carryover_page`. -/
structure ExtractState where
  records : List (ℕ × Str)
  frag : Str
  fragPage : Option ℕ
deriving DecidableEq

/-- Step 7 of the loop (`utils/pdf_extractor.py:317-344`): each sentence
is emitted with start page `carryover_page` if `carryover_page` is not
`None` (its value *after* step 6) and the sentence starts with the
current `carryover_fragment` text, else with the current page number. -/
def emitRecords (pageNum : ℕ) (fragPage1 : Option ℕ) (frag1 : Str)
    (sents1 : List Str) : List (ℕ × Str) :=
  sents1.map fun s =>
    if fragPage1.isSome && frag1.isPrefixOf s then (fragPage1.getD 0, s)
    else (pageNum, s)

/-- Steps 4-7 of the loop for an included page
(`utils/pdf_extractor.py:294-344`), given the normalized page text:
prepend and clear the pending fragment (remembering its origin page),
split into sentences, pop an unterminated last sentence as the new
carryover, then emit the remaining sentences. -/
def processIncluded (st : ExtractState) (pageNum : ℕ) (normalized : Str) : ExtractState :=
  let combined := if st.frag.isEmpty then normalized else st.frag ++ ' ' :: normalized
  let startPg : Option ℕ := if st.frag.isEmpty then some pageNum else st.fragPage
  let frag0 : Str := if st.frag.isEmpty then st.frag else []
  let fragPage0 : Option ℕ := if st.frag.isEmpty then st.fragPage else none
  let sents := split_into_sentences combined
  match sents.getLast? with
  | some last =>
    if (match last.getLast? with | some c => isTerm c | none => false) then
      ⟨st.records ++ emitRecords pageNum fragPage0 frag0 sents, frag0, fragPage0⟩
    else
      ⟨st.records ++ emitRecords pageNum startPg last sents.dropLast, last, startPg⟩
  | none => ⟨st.records ++ emitRecords pageNum fragPage0 frag0 sents, frag0, fragPage0⟩

/-- One iteration of the page loop (`utils/pdf_extractor.py:257-344`):
a skipped page leaves the state untouched. -/
def processPage (cfg : FilterConfig) (st : ExtractState) (pageNum : ℕ) (page : Page) :
    ExtractState :=
  if shouldSkipCfg cfg pageNum page then st
  else processIncluded st pageNum (normalize_line_breaks (page_raw_text cfg page))

/-- The page loop, starting at 1-based page number `n`. -/
def runPages (cfg : FilterConfig) : ExtractState → ℕ → List Page → ExtractState
  | st, _, [] => st
  | st, n, p :: ps => runPages cfg (processPage cfg st n p) (n + 1) ps

/-- The record sequence produced by `extract_sentences_with_page`
(`utils/pdf_extractor.py:192-363`): the per-sentence `(page_num,
sentence)` pairs, in emission order.  The residual carryover fragment of
the final state is discarded (`doc.close()` follows the loop and the
fragment is never flushed); file writing and CSV/JSON serialisation are
out-of-scope I/O around the same record sequence. -/
def extract_sentences_with_page (cfg : FilterConfig) (pages : List Page) : List (ℕ × Str) :=
  (runPages cfg ⟨[], [], none⟩ 1 pages).records

/-- The carryover fragment left over after the whole page walk. -/
def finalFragment (cfg : FilterConfig) (pages : List Page) : Str :=
  (runPages cfg ⟨[], [], none⟩ 1 pages).frag

/-! ## Content projections used by the round-trip statements -/

/-- Delete every whitespace character: the text content of a string.
Two strings with the same `noWs` image agree up to whitespace layout. -/
def noWs (s : Str) : Str := s.filter fun c => !pyWs c

/-- The sentence texts of a record sequence, in order. -/
def sentenceTexts (rs : List (ℕ × Str)) : List Str := rs.map (·.2)

/-- Concatenation with a single space between consecutive entries. -/
def joinSpace : List Str → Str
  | [] => []
  | [t] => t
  | t :: ts => t ++ ' ' :: joinSpace ts

/-- The concatenated normalized text of the included (non-skipped) pages,
numbering pages from `n`. -/
def includedNormConcat (cfg : FilterConfig) : ℕ → List Page → Str
  | _, [] => []
  | n, p :: ps =>
    (if shouldSkipCfg cfg n p then [] else normalize_line_breaks (page_raw_text cfg p))
      ++ includedNormConcat cfg (n + 1) ps

/-! ## Definitions taken from the specification's wording

These re-state, in the spec's own terms, what the corresponding source
functions are claimed to compute; the refinement theorems below compare
them with the source embeddings above. -/

/-- Spec check 1: the page number is in the force-skip set. -/
def checkForcedSkip (cfg : FilterConfig) (n : ℕ) : Prop := (n : ℤ) ∈ cfg.skipPages

/-- Spec check 2: the page's raw stripped text (always the full page) is
shorter than `minTextLen`. -/
def checkMinLen (cfg : FilterConfig) (p : Page) : Prop :=
  (strip p.rawText).length < cfg.minTextLen

/-- Spec check 3: at least `tableThreshold` table/figure caption matches. -/
def checkCaptions (cfg : FilterConfig) (p : Page) : Prop :=
  cfg.tableThreshold ≤ countKo p.rawText + countEn p.rawText

/-- Spec check 4: image skipping enabled and at least one embedded image. -/
def checkImages (cfg : FilterConfig) (p : Page) : Prop :=
  cfg.skipIfImage = true ∧ 1 ≤ p.imageCount

/-- Spec check 5: the text-block area ratio is below `minTextRatio`. -/
def checkRatio (cfg : FilterConfig) (p : Page) : Prop :=
  compute_text_block_area_ratio p p.textDict cfg.headerRatio cfg.footerRatio
    < cfg.minTextRatio

/-- The per-line step of `TextNormalizer.normalize` as the spec words it:
skip blank lines; a line ending with a hyphen is appended with the hyphen
stripped and joined directly to the next line; a line not ending with a
terminal character is appended followed by a single space; a line ending
with a terminal character is appended followed by a newline. -/
def normLineSpec (acc : Str) (line : Str) : Str :=
  let l := strip line
  if l = [] then acc
  else if l.getLast? = some '-' then acc ++ l.dropLast
  else if (∃ c, l.getLast? = some c ∧
      c ∈ (['.', '!', '?', '…', '。', '？', '！'] : List Char)) then acc ++ l ++ ['\n']
  else acc ++ l ++ [' ']

/-- The text-block area ratio as the spec words it: remove every content
block whose bounding box lies entirely above the header band or entirely
below the footer band (blocks with no bounding box likewise excluded),
sum the bounding-box areas of the remaining text-type blocks, divide by
`width * height`; `0` when the page area is non-positive. -/
def text_area_ratio_spec (page : Page) (headerRatio footerRatio : ℚ) : ℚ :=
  if page.width * page.height ≤ 0 then 0
  else
    (((page.blocks.filter fun b =>
          match b.bbox with
          | none => false
          | some bb => !(decide (bb.y1 < page.height * headerRatio)) &&
              !(decide (bb.y0 > page.height * (1 - footerRatio)))).filter
        fun b => b.typ.getD (-1) = 0).map
      fun b =>
        match b.bbox with
        | some bb => (bb.x1 - bb.x0) * (bb.y1 - bb.y0)
        | none => 0).sum / (page.width * page.height)

/-- Per-token semantics of the skip-page string exactly as claim C9 words
it: a bare-integer token yields its singleton; a `lo-hi` token with
`lo ≤ hi` yields the inclusive range; anything else yields nothing. -/
def token_pages_claim (part : Str) : Finset ℤ :=
  let p := strip part
  match parseInt p with
  | some n => {n}
  | none =>
    if p.contains '-' then
      match parseInt (strip (p.takeWhile fun c => c ≠ '-')),
            parseInt (strip ((p.dropWhile fun c => c ≠ '-')).tail) with
      | some lo, some hi => if lo ≤ hi then Finset.Icc lo hi else ∅
      | _, _ => ∅
    else ∅

/-- The union the claim describes, over the comma-separated tokens. -/
def parse_skip_pages_claim (s : Str) : Finset ℤ :=
  (splitOnComma s).foldl (fun acc part => acc ∪ token_pages_claim part) ∅

/-- Per-token semantics as amended: a token containing a hyphen is only
ever parsed as a `lo-hi` range (so a negative bare integer is ignored as
a malformed range); a hyphen-free token parses as a bare integer. -/
def token_pages_amended (part : Str) : Finset ℤ :=
  let p := strip part
  if p.contains '-' then
    match parseInt (strip (p.takeWhile fun c => c ≠ '-')),
          parseInt (strip ((p.dropWhile fun c => c ≠ '-')).tail) with
    | some lo, some hi => if lo ≤ hi then Finset.Icc lo hi else ∅
    | _, _ => ∅
  else
    match parseInt p with
    | some n => {n}
    | none => ∅

/-- The union over comma-separated tokens of the amended semantics. -/
def parse_skip_pages_amended (s : Str) : Finset ℤ :=
  (splitOnComma s).foldl (fun acc part => acc ∪ token_pages_amended part) ∅

/-! ## Concrete fixtures for the evaluation theorems -/

/-- A page carrying only plain text (no blocks, zero-area rectangle,
no images). -/
def mkPage (t : Str) : Page := ⟨t, [], 0, 0, 0⟩

/-- A permissive configuration: nothing is force-skipped and every
text-only page passes all filter checks. -/
def cfgT : FilterConfig := ⟨∅, 0, 1, false, 0, false, 0, 0⟩

/-- The configuration of the spec's page-5/page-6 example: pages 1-4 are
force-skipped, everything else passes. -/
def cfgSkip14 : FilterConfig := ⟨{1, 2, 3, 4}, 0, 1, false, 0, false, 0, 0⟩

/-- Page 5 of the spec example. -/
def pageC1a : Page := mkPage ("This is a sentence that wraps onto the next".toList)

/-- Page 6 of the spec example. -/
def pageC1b : Page := mkPage ("page and ends here. Another full sentence.".toList)

/-- The six-page document of the spec example (pages 1-4 are skipped). -/
def pagesC1 : List Page := [mkPage [], mkPage [], mkPage [], mkPage [], pageC1a, pageC1b]

/-- Two-page document whose first page ends in an unterminated fragment
that completes on the second page. -/
def pagesC2 : List Page :=
  [mkPage ("Alpha beta".toList), mkPage ("gamma. Delta.".toList)]

/-- One-page document for the round-trip counterexample. -/
def pagesC3c : List Page := [mkPage ("Hi.".toList)]

/-- Skip-free two-page document leaving a residual final fragment. -/
def pagesC3w : List Page :=
  [mkPage ("Wrap around".toList), mkPage ("done. Next one. Tail frag".toList)]

/-- Configuration force-skipping page 2 only. -/
def cfgW : FilterConfig := ⟨{2}, 0, 1, false, 0, false, 0, 0⟩

/-- Three pages whose middle page is force-skipped by `cfgW`. -/
def pagesW4 : List Page :=
  [mkPage ("One. Two".toList), mkPage ("Ignored text.".toList),
   mkPage ("three. Four.".toList)]

/-- A 10 x 10 page with a header text block (`y1 = 1/5`), a body text
block of area 30, a block with no bounding box and a non-text block. -/
def pageW7 : Page :=
  ⟨"body".toList,
   [⟨some ⟨0, 0, 4, (1 : ℚ)/5⟩, some 0, []⟩,
    ⟨some ⟨0, 2, 5, 8⟩, some 0, []⟩,
    ⟨none, some 0, []⟩,
    ⟨some ⟨0, 3, 4, 9⟩, some 1, []⟩],
   10, 10, 0⟩

/-! ## Whitespace and strip lemmas -/

theorem noWs_append (a b : Str) : noWs (a ++ b) = noWs a ++ noWs b :=
  List.filter_append a b

theorem noWs_ltrim (s : Str) : noWs (ltrim s) = noWs s := by
  induction s with
  | nil => rfl
  | cons c t ih =>
    by_cases h : pyWs c
    · rw [show ltrim (c :: t) = ltrim t by simp [ltrim, List.dropWhile_cons, h], ih]
      simp [noWs, h]
    · simp [ltrim, List.dropWhile_cons, h]

theorem rtrim_eq (s : Str) : rtrim s = List.rdropWhile pyWs s := rfl

theorem noWs_rtrim (s : Str) : noWs (rtrim s) = noWs s := by
  have h1 : noWs (rtrim s) = (noWs (s.reverse.dropWhile pyWs)).reverse := by
    rw [rtrim, noWs, List.filter_reverse]; rfl
  rw [h1, show s.reverse.dropWhile pyWs = ltrim s.reverse from rfl, noWs_ltrim,
    show noWs s.reverse = (noWs s).reverse from List.filter_reverse .., List.reverse_reverse]

theorem noWs_strip (s : Str) : noWs (strip s) = noWs s := by
  rw [strip, noWs_rtrim, noWs_ltrim]

theorem ltrim_strip (s : Str) : ltrim (strip s) = strip s := by
  rcases h : strip s with _ | ⟨a, r⟩
  · rfl
  · have hpre : strip s <+: ltrim s := by
      rw [strip, rtrim_eq]; exact List.rdropWhile_prefix pyWs (ltrim s)
    rw [h] at hpre
    rcases hpre with ⟨t, ht⟩
    have hlen : 0 < (List.dropWhile pyWs s).length := by
      rw [show List.dropWhile pyWs s = ltrim s from rfl, ← ht]; simp
    have hget := List.dropWhile_get_zero_not pyWs s hlen
    have hget0 : (List.dropWhile pyWs s).get ⟨0, hlen⟩ = a := by
      have : List.dropWhile pyWs s = a :: (r ++ t) := by
        rw [show List.dropWhile pyWs s = ltrim s from rfl, ← ht]; rfl
      simp [this]
    rw [hget0] at hget
    simp only [ltrim, List.dropWhile_cons]
    simp [hget]

theorem strip_idem (s : Str) : strip (strip s) = strip s := by
  conv_lhs => rw [strip, ltrim_strip, rtrim_eq, strip, rtrim_eq,
    List.rdropWhile_idempotent]
  rw [strip, rtrim_eq]

/-! ## Content of the sentence splitter -/

theorem cons1_ne_nil (c : Char) (L : List Str) : cons1 c L ≠ [] := by
  cases L <;> simp [cons1]

theorem flatten_cons1 (c : Char) (L : List Str) (h : L ≠ []) :
    (cons1 c L).flatten = c :: L.flatten := by
  cases L with
  | nil => exact absurd rfl h
  | cons p ps => simp [cons1]

theorem sentAux_ne_nil (b : Bool) (s : Str) : sentAux b s ≠ [] := by
  cases s with
  | nil => simp [sentAux]
  | cons c t =>
    rw [sentAux]
    split
    · simp
    · exact cons1_ne_nil _ _

theorem noWs_flatten_sentAux (s : Str) : ∀ b, noWs (sentAux b s).flatten = noWs s := by
  induction s with
  | nil => intro b; simp [sentAux, noWs]
  | cons c t ih =>
    intro b
    rw [sentAux]
    split
    · rename_i h
      have hc : pyWs c = true := by
        rcases Bool.and_eq_true .. |>.mp h with ⟨_, h2⟩; exact h2
      simp only [List.flatten_cons, List.nil_append, ih]
      simp [noWs, hc]
    · rw [flatten_cons1 _ _ (sentAux_ne_nil _ _)]
      by_cases hc : pyWs c <;> simp [noWs, hc] <;>
        simpa [noWs] using ih (isTerm c)

theorem noWs_flatten_map_strip (l : List Str) :
    noWs ((l.map strip).flatten) = noWs l.flatten := by
  induction l with
  | nil => rfl
  | cons a t ih => simp [noWs_append, noWs_strip, ih]

theorem noWs_flatten_split (t : Str) :
    noWs (split_into_sentences t).flatten = noWs t := by
  rw [split_into_sentences, List.flatten_filter_not_isEmpty, noWs_flatten_map_strip,
    noWs_flatten_sentAux]

theorem mem_split_nonempty_stripped {s t : Str} (h : s ∈ split_into_sentences t) :
    s ≠ [] ∧ strip s = s := by
  rw [split_into_sentences] at h
  have h1 := List.of_mem_filter h
  have h2 := List.mem_of_mem_filter h
  rcases List.mem_map.mp h2 with ⟨x, _, rfl⟩
  exact ⟨by simpa using h1, strip_idem x⟩

/-! ## Evaluation lemmas for the page filter

`Rat` arithmetic does not reduce inside the kernel, so concrete runs of
the assembler first rewrite the skip decisions with these lemmas. -/

theorem processPage_skip {cfg : FilterConfig} {n : ℕ} {p : Page}
    (st : ExtractState) (h : shouldSkipCfg cfg n p = true) :
    processPage cfg st n p = st := by
  simp [processPage, h]

theorem processPage_incl {cfg : FilterConfig} {n : ℕ} {p : Page}
    (st : ExtractState) (h : shouldSkipCfg cfg n p = false) :
    processPage cfg st n p =
      processIncluded st n (normalize_line_breaks (page_raw_text cfg p)) := by
  simp [processPage, h]

theorem shouldSkip_of_mem {cfg : FilterConfig} {n : ℕ} (p : Page)
    (h : (n : ℤ) ∈ cfg.skipPages) : shouldSkipCfg cfg n p = true := by
  simp [shouldSkipCfg, should_skip_page, h]

theorem ratio_mkPage (t : Str) (hr fr : ℚ) :
    compute_text_block_area_ratio (mkPage t) (mkPage t).textDict hr fr = 0 := by
  simp [compute_text_block_area_ratio, mkPage]

theorem shouldSkip_mkPage_false (cfg : FilterConfig) (n : ℕ) (t : Str)
    (h1 : (n : ℤ) ∉ cfg.skipPages) (h2 : cfg.minTextLen = 0)
    (h3 : countKo t + countEn t < cfg.tableThreshold) (h4 : cfg.skipIfImage = false)
    (h5 : cfg.minTextRatio ≤ 0) :
    shouldSkipCfg cfg n (mkPage t) = false := by
  simp only [shouldSkipCfg, should_skip_page]
  rw [if_neg h1, if_neg (by simp [mkPage, h2]), if_neg (by simp [mkPage]; omega),
    if_neg (by simp [h4]), if_neg (by rw [ratio_mkPage]; exact not_lt.mpr h5)]

/-! ## Anatomy of one included-page step -/

theorem sentenceTexts_emit (n : ℕ) (fp : Option ℕ) (fr : Str) :
    ∀ ss, sentenceTexts (emitRecords n fp fr ss) = ss := by
  intro ss
  induction ss with
  | nil => rfl
  | cons s t ih =>
    simp only [emitRecords, sentenceTexts, List.map_cons] at ih ⊢
    split <;> simpa using ih

theorem mem_emit {n : ℕ} {fp : Option ℕ} {fr : Str} {ss : List Str}
    {r : ℕ × Str} (h : r ∈ emitRecords n fp fr ss) :
    (r.1 = n ∨ ∃ m, fp = some m ∧ r.1 = m) ∧ r.2 ∈ ss := by
  rcases List.mem_map.mp h with ⟨s, hs, rfl⟩
  by_cases hc : (fp.isSome && fr.isPrefixOf s) = true
  · rcases Option.isSome_iff_exists.mp (Bool.and_eq_true .. |>.mp hc).1 with ⟨m, hm⟩
    have hpre : fr <+: s := List.isPrefixOf_iff_prefix.mp (Bool.and_eq_true .. |>.mp hc).2
    refine ⟨Or.inr ⟨m, hm, ?_⟩, by simp [hc, hs]⟩
    simp [hc, hm, hpre]
  · exact ⟨Or.inl (by simp [hc]), by simp [hc, hs]⟩

theorem processIncluded_spec (st : ExtractState) (n : ℕ) (norm : Str) :
    ∃ ss fp fr,
      processIncluded st n norm = ⟨st.records ++ emitRecords n fp fr ss, fr, fp⟩ ∧
      (fp = none ∨ fp = some n ∨ fp = st.fragPage) ∧
      noWs (ss.flatten ++ fr) = noWs (st.frag ++ norm) ∧
      (∀ s ∈ ss, s ≠ [] ∧ strip s = s) := by
  have hfragnil : (if st.frag.isEmpty then st.frag else []) = [] := by
    by_cases h : st.frag.isEmpty
    · simpa [h] using List.isEmpty_iff.mp h
    · simp [h]
  have hcomb : noWs (if st.frag.isEmpty then norm else st.frag ++ ' ' :: norm)
      = noWs (st.frag ++ norm) := by
    by_cases h : st.frag.isEmpty
    · rw [if_pos h, List.isEmpty_iff.mp h]; rfl
    · rw [if_neg h, noWs_append, noWs_append,
        show noWs (' ' :: norm) = noWs norm by simp [noWs, pyWs]]
  simp only [processIncluded]
  split
  · rename_i last hL
    split
    · refine ⟨_, _, _, rfl, ?_, ?_, fun s hs => mem_split_nonempty_stripped hs⟩
      · by_cases h : st.frag.isEmpty <;> simp [h]
      · rw [hfragnil, List.append_nil, noWs_flatten_split, hcomb]
    · refine ⟨_, _, _, rfl, ?_, ?_,
        fun s hs => mem_split_nonempty_stripped (List.dropLast_subset _ hs)⟩
      · by_cases h : st.frag.isEmpty <;> simp [h]
      · have hne : split_into_sentences
            (if st.frag.isEmpty then norm else st.frag ++ ' ' :: norm) ≠ [] := by
          intro hnil; rw [hnil] at hL; cases hL
        have hlast := List.getLast?_eq_getLast _ hne
        rw [hL] at hlast
        have hsplit := List.dropLast_append_getLast hne
        rw [← Option.some_injective _ hlast] at hsplit
        rw [← hcomb, ← noWs_flatten_split
          (if st.frag.isEmpty then norm else st.frag ++ ' ' :: norm)]
        conv_rhs => rw [← hsplit]
        rw [List.flatten_append]
        simp
  · rename_i hL
    have hnil := List.getLast?_eq_none_iff.mp hL
    refine ⟨_, _, _, rfl, ?_, ?_, ?_⟩
    · by_cases h : st.frag.isEmpty <;> simp [h]
    · rw [hnil, hfragnil, ← hcomb, ← noWs_flatten_split
        (if st.frag.isEmpty then norm else st.frag ++ ' ' :: norm), hnil]
      rfl
    · intro s hs
      rw [hnil] at hs
      exact absurd hs (List.not_mem_nil s)

/-! ## Run-level lemmas -/

theorem sentenceTexts_append (a b : List (ℕ × Str)) :
    sentenceTexts (a ++ b) = sentenceTexts a ++ sentenceTexts b :=
  List.map_append ..

theorem runPages_content (cfg : FilterConfig) :
    ∀ (pages : List Page) (st : ExtractState) (n : ℕ),
      noWs ((sentenceTexts (runPages cfg st n pages).records).flatten
          ++ (runPages cfg st n pages).frag)
        = noWs ((sentenceTexts st.records).flatten ++ st.frag)
          ++ noWs (includedNormConcat cfg n pages) := by
  intro pages
  induction pages with
  | nil => intro st n; simp [runPages, includedNormConcat, noWs]
  | cons p ps ih =>
    intro st n
    cases h : shouldSkipCfg cfg n p with
    | true =>
      rw [runPages, includedNormConcat, processPage_skip st h, ih, if_pos h,
        List.nil_append]
    | false =>
      rw [runPages, includedNormConcat, processPage_incl st h,
        if_neg (by simp [h]), ih]
      rcases processIncluded_spec st n (normalize_line_breaks (page_raw_text cfg p)) with
        ⟨ss, fp, fr, heq, _, hcontent, _⟩
      rw [heq]
      have key : noWs ((sentenceTexts (st.records ++ emitRecords n fp fr ss)).flatten ++ fr)
          = noWs ((sentenceTexts st.records).flatten ++ st.frag)
            ++ noWs (normalize_line_breaks (page_raw_text cfg p)) := by
        rw [sentenceTexts_append, sentenceTexts_emit, List.flatten_append,
          List.append_assoc, noWs_append, hcontent, noWs_append, noWs_append,
          List.append_assoc]
      rw [key, noWs_append, List.append_assoc, noWs_append]

theorem runPages_avoid (cfg : FilterConfig) (k : ℕ) :
    ∀ (pages : List Page) (st : ExtractState) (n : ℕ),
      (∀ r ∈ st.records, r.1 ≠ k) → (st.fragPage ≠ some k) →
      (∀ i (hi : i < pages.length), n + i = k →
        shouldSkipCfg cfg k (pages.get ⟨i, hi⟩) = true) →
      ∀ r ∈ (runPages cfg st n pages).records, r.1 ≠ k := by
  intro pages
  induction pages with
  | nil => intro st n hrec _ _; exact fun r hr => hrec r hr
  | cons p ps ih =>
    intro st n hrec hfp hskip
    rw [runPages]
    cases h : shouldSkipCfg cfg n p with
    | true =>
      rw [processPage_skip st h]
      exact ih st (n + 1) hrec hfp fun i hi hik =>
        hskip (i + 1) (by simpa using Nat.succ_lt_succ hi) (by omega)
    | false =>
      have hnk : n ≠ k := by
        intro hk
        have hsk := hskip 0 (by simp) (by omega)
        simp only [List.get] at hsk
        rw [← hk, h] at hsk
        cases hsk
      rw [processPage_incl st h]
      rcases processIncluded_spec st n (normalize_line_breaks (page_raw_text cfg p)) with
        ⟨ss, fp, fr, heq, hfpcases, _, _⟩
      rw [heq]
      refine ih _ (n + 1) ?_ ?_ fun i hi hik =>
        hskip (i + 1) (by simpa using Nat.succ_lt_succ hi) (by omega)
      · intro r hr
        rcases List.mem_append.mp hr with hold | hnew
        · exact hrec r hold
        · rcases (mem_emit hnew).1 with h1 | ⟨m, hm, h1⟩
          · rw [h1]; exact hnk
          · rw [h1]
            rcases hfpcases with hc | hc | hc
            · rw [hc] at hm; cases hm
            · rw [hc] at hm
              have hnm : n = m := Option.some_injective _ hm
              rw [← hnm]
              exact hnk
            · intro hmk
              exact hfp (by rw [← hc, hm, hmk])
      · intro hfk
        rcases hfpcases with hc | hc | hc
        · rw [hc] at hfk; cases hfk
        · rw [hc] at hfk
          exact hnk (Option.some_injective _ hfk)
        · exact hfp (by rw [← hc]; exact hfk)

theorem runPages_replace (cfg : FilterConfig) :
    ∀ (pre : List Page) (st : ExtractState) (n : ℕ) (p q : Page) (post : List Page),
      shouldSkipCfg cfg (n + pre.length) p = true →
      shouldSkipCfg cfg (n + pre.length) q = true →
      runPages cfg st n (pre ++ p :: post) = runPages cfg st n (pre ++ q :: post) := by
  intro pre
  induction pre with
  | nil =>
    intro st n p q post hp hq
    simp only [List.nil_append, runPages]
    rw [processPage_skip st (by simpa using hp), processPage_skip st (by simpa using hq)]
  | cons a t ih =>
    intro st n p q post hp hq
    simp only [List.cons_append, runPages]
    exact ih _ (n + 1) p q post (by simpa [Nat.add_comm, Nat.add_assoc,
      Nat.add_left_comm] using hp) (by simpa [Nat.add_comm, Nat.add_assoc,
      Nat.add_left_comm] using hq)

theorem runPages_trimmed (cfg : FilterConfig) :
    ∀ (pages : List Page) (st : ExtractState) (n : ℕ),
      (∀ r ∈ st.records, r.2 ≠ [] ∧ strip r.2 = r.2) →
      ∀ r ∈ (runPages cfg st n pages).records, r.2 ≠ [] ∧ strip r.2 = r.2 := by
  intro pages
  induction pages with
  | nil => intro st n hrec; exact fun r hr => hrec r hr
  | cons p ps ih =>
    intro st n hrec
    rw [runPages]
    cases h : shouldSkipCfg cfg n p with
    | true =>
      rw [processPage_skip st h]
      exact ih st (n + 1) hrec
    | false =>
      rw [processPage_incl st h]
      rcases processIncluded_spec st n (normalize_line_breaks (page_raw_text cfg p)) with
        ⟨ss, fp, fr, heq, _, _, hmem⟩
      rw [heq]
      refine ih _ (n + 1) ?_
      intro r hr
      rcases List.mem_append.mp hr with hold | hnew
      · exact hrec r hold
      · exact hmem r.2 (mem_emit hnew).2

theorem noWs_joinSpace : ∀ ts : List Str, noWs (joinSpace ts) = noWs ts.flatten := by
  intro ts
  induction ts with
  | nil => rfl
  | cons t rest ih =>
    cases rest with
    | nil => simp [joinSpace, noWs]
    | cons u us =>
      rw [show joinSpace (t :: u :: us) = t ++ ' ' :: joinSpace (u :: us) from rfl,
        noWs_append, show noWs (' ' :: joinSpace (u :: us)) = noWs (joinSpace (u :: us))
          by simp [noWs, pyWs], ih]
      simp [noWs_append]

theorem includedNormConcat_no_skip (cfg : FilterConfig) :
    ∀ (pages : List Page) (n : ℕ),
      (∀ i (hi : i < pages.length), shouldSkipCfg cfg (n + i) (pages.get ⟨i, hi⟩) = false) →
      includedNormConcat cfg n pages
        = (pages.map fun p => normalize_line_breaks (page_raw_text cfg p)).flatten := by
  intro pages
  induction pages with
  | nil => intro n _; rfl
  | cons p ps ih =>
    intro n h
    rw [includedNormConcat, if_neg (by simpa using h 0 (by simp) ), List.map_cons,
      List.flatten_cons, ih (n + 1) fun i hi => by
        simpa [Nat.add_comm, Nat.add_assoc, Nat.add_left_comm] using
          h (i + 1) (by simpa using Nat.succ_lt_succ hi)]

/-! ## Claim theorems -/

/-- C8: after the last page, a residual pending fragment produces no
record (the emitted records are exactly the final state's record list,
which never receives the fragment), and it is the only text of included
pages missing from the records: the records' text plus the final
fragment's text is, character for character (ignoring whitespace
layout), the concatenated normalized text of the included pages. -/
theorem C8_fragment_drop (cfg : FilterConfig) (pages : List Page) :
    noWs (sentenceTexts (extract_sentences_with_page cfg pages)).flatten
      ++ noWs (finalFragment cfg pages)
    = noWs (includedNormConcat cfg 1 pages) := by
  have h := runPages_content cfg pages ⟨[], [], none⟩ 1
  simpa [extract_sentences_with_page, finalFragment, noWs_append,
    sentenceTexts, noWs] using h

/-- C3 (amended): for a document with no skipped pages, concatenating
the emitted sentence texts with single spaces reproduces the
concatenated normalized text of the whole document minus the final
unterminated fragment, up to whitespace layout: deleting all whitespace,
record texts followed by the final fragment equal the document's
normalized text.  (Exact string equality fails — see the
counterexample — because the splitter re-normalizes the whitespace
between sentences.) -/
theorem C3_roundtrip_amended (cfg : FilterConfig) (pages : List Page)
    (h : ∀ i (hi : i < pages.length),
      shouldSkipCfg cfg (1 + i) (pages.get ⟨i, hi⟩) = false) :
    noWs (joinSpace (sentenceTexts (extract_sentences_with_page cfg pages)))
      ++ noWs (finalFragment cfg pages)
    = noWs ((pages.map fun p => normalize_line_breaks (page_raw_text cfg p)).flatten) := by
  rw [noWs_joinSpace, ← includedNormConcat_no_skip cfg pages 1 h]
  have hc := runPages_content cfg pages ⟨[], [], none⟩ 1
  simpa [extract_sentences_with_page, finalFragment, noWs_append,
    sentenceTexts, noWs] using hc

/-- C3 counterexample: on the one-page document `"Hi."` there is no
residual fragment, yet the concatenation of the emitted sentence texts
(`"Hi."`) differs from the document's normalized text (`"Hi.\n"`), so
the claimed exact reproduction fails. -/
theorem C3_roundtrip_counterexample :
    finalFragment cfgT pagesC3c = [] ∧
    joinSpace (sentenceTexts (extract_sentences_with_page cfgT pagesC3c))
      ≠ includedNormConcat cfgT 1 pagesC3c := by
  have h1 : shouldSkipCfg cfgT 1 (mkPage ("Hi.".toList)) = false :=
    shouldSkip_mkPage_false cfgT 1 _ (by decide) rfl (by decide) rfl le_rfl
  constructor
  · show (runPages cfgT ⟨[], [], none⟩ 1 [mkPage ("Hi.".toList)]).frag = []
    rw [runPages, processPage_incl _ h1, runPages]
    decide
  · show joinSpace (sentenceTexts
        (runPages cfgT ⟨[], [], none⟩ 1 [mkPage ("Hi.".toList)]).records)
      ≠ includedNormConcat cfgT 1 [mkPage ("Hi.".toList)]
    rw [runPages, processPage_incl _ h1, runPages, includedNormConcat,
      if_neg (by rw [h1]; decide)]
    decide

/-- C3 witness: the amended round-trip at a concrete skip-free two-page
document with a residual fragment. -/
theorem C3_roundtrip_witness :
    (∀ i (hi : i < pagesC3w.length),
      shouldSkipCfg cfgT (1 + i) (pagesC3w.get ⟨i, hi⟩) = false) ∧
    noWs (joinSpace (sentenceTexts (extract_sentences_with_page cfgT pagesC3w)))
        ++ noWs (finalFragment cfgT pagesC3w)
      = noWs ((pagesC3w.map fun p =>
          normalize_line_breaks (page_raw_text cfgT p)).flatten) := by
  have hns : ∀ i (hi : i < pagesC3w.length),
      shouldSkipCfg cfgT (1 + i) (pagesC3w.get ⟨i, hi⟩) = false := by
    intro i hi
    simp only [pagesC3w, List.length_cons, List.length_nil] at hi
    interval_cases i
    · exact shouldSkip_mkPage_false cfgT 1 _ (by decide) rfl (by decide) rfl le_rfl
    · exact shouldSkip_mkPage_false cfgT 2 _ (by decide) rfl (by decide) rfl le_rfl
  exact ⟨hns, C3_roundtrip_amended cfgT pagesC3w hns⟩

/-- C10: every emitted record's sentence text is non-empty and carries
no leading or trailing whitespace (it is a fixed point of `strip`). -/
theorem C10_records_trimmed (cfg : FilterConfig) (pages : List Page) :
    ∀ r ∈ extract_sentences_with_page cfg pages, r.2 ≠ [] ∧ strip r.2 = r.2 :=
  runPages_trimmed cfg pages ⟨[], [], none⟩ 1 (by simp)

/-- C10 witness: the record `(1, "One.")` emitted for the page
`"One. Two"` is non-empty and stripped. -/
theorem C10_records_trimmed_witness :
    ((1 : ℕ), "One.".toList) ∈
        extract_sentences_with_page cfgT [mkPage ("One. Two".toList)] ∧
    "One.".toList ≠ ([] : Str) ∧ strip ("One.".toList) = "One.".toList := by
  have h1 : shouldSkipCfg cfgT 1 (mkPage ("One. Two".toList)) = false :=
    shouldSkip_mkPage_false cfgT 1 _ (by decide) rfl (by decide) rfl le_rfl
  have hmem : ((1 : ℕ), "One.".toList) ∈
      extract_sentences_with_page cfgT [mkPage ("One. Two".toList)] := by
    rw [extract_sentences_with_page, runPages, processPage_incl _ h1, runPages]
    decide
  have h := C10_records_trimmed cfgT [mkPage ("One. Two".toList)] _ hmem
  exact ⟨hmem, h.1, h.2⟩

/-- C4: a page the filter skips leaves the assembler state untouched
(the pending fragment carries unchanged); no record carries a skipped
page number as start page; and the run does not depend on the content of
a skipped page (it may be replaced by any other page that is also
skipped). -/
theorem C4_skip_invariant :
    (∀ (cfg : FilterConfig) (st : ExtractState) (n : ℕ) (p : Page),
      shouldSkipCfg cfg n p = true → processPage cfg st n p = st) ∧
    (∀ (cfg : FilterConfig) (pages : List Page) (i : ℕ) (hi : i < pages.length),
      shouldSkipCfg cfg (i + 1) (pages.get ⟨i, hi⟩) = true →
      ∀ r ∈ extract_sentences_with_page cfg pages, r.1 ≠ i + 1) ∧
    (∀ (cfg : FilterConfig) (st : ExtractState) (n : ℕ) (pre : List Page)
      (p q : Page) (post : List Page),
      shouldSkipCfg cfg (n + pre.length) p = true →
      shouldSkipCfg cfg (n + pre.length) q = true →
      runPages cfg st n (pre ++ p :: post) = runPages cfg st n (pre ++ q :: post)) := by
  refine ⟨fun cfg st n p h => processPage_skip st h, ?_,
    fun cfg st n pre p q post hp hq => runPages_replace cfg pre st n p q post hp hq⟩
  intro cfg pages i hi hskip r hr
  refine runPages_avoid cfg (i + 1) pages ⟨[], [], none⟩ 1 (by simp) (by simp) ?_ r hr
  intro j hj hjk
  have hji : j = i := by omega
  subst hji
  exact hskip

/-- C4 witness: with page 2 force-skipped, the step at page 2 is the
identity on the state, no record of the three-page run starts at page 2,
and replacing the skipped page's content does not change the run. -/
theorem C4_skip_invariant_witness :
    processPage cfgW ⟨[], [], none⟩ 2 (mkPage ("Ignored text.".toList))
        = ⟨[], [], none⟩ ∧
    (∀ r ∈ extract_sentences_with_page cfgW pagesW4, r.1 ≠ 2) ∧
    runPages cfgW ⟨[], [], none⟩ 1
        ([mkPage ("One.".toList)] ++ mkPage ("AAA".toList) :: [])
      = runPages cfgW ⟨[], [], none⟩ 1
        ([mkPage ("One.".toList)] ++ mkPage ("BBB".toList) :: []) := by
  have hm : ((2 : ℕ) : ℤ) ∈ cfgW.skipPages := by decide
  refine ⟨C4_skip_invariant.1 cfgW _ 2 _ (shouldSkip_of_mem _ hm),
    C4_skip_invariant.2.1 cfgW pagesW4 1 (by decide) (shouldSkip_of_mem _ hm),
    C4_skip_invariant.2.2 cfgW _ 1 [mkPage ("One.".toList)] _ _ []
      (shouldSkip_of_mem _ hm) (shouldSkip_of_mem _ hm)⟩

/-- C1: the spec's page-5/page-6 example.  Contrary to the claim (and to
the code's own comments), the sentence that began as page 5's pending
fragment is emitted with start page 6: step 4 of the loop clears
`carryover_page` to `None` before the emission loop reads it, so the
emission check `carryover_page is not None and ...` never fires once the
page's sentences all terminate.  The records are `(6, ...)`, `(6, ...)`,
not the claimed `(5, ...)`, `(6, ...)`. -/
theorem C1_carry_attribution :
    extract_sentences_with_page cfgSkip14 pagesC1
      = [(6, "This is a sentence that wraps onto the next page and ends here.".toList),
         (6, "Another full sentence.".toList)] ∧
    extract_sentences_with_page cfgSkip14 pagesC1
      ≠ [(5, "This is a sentence that wraps onto the next page and ends here.".toList),
         (6, "Another full sentence.".toList)] := by
  have e1 : shouldSkipCfg cfgSkip14 1 (mkPage []) = true :=
    shouldSkip_of_mem _ (by decide)
  have e2 : shouldSkipCfg cfgSkip14 2 (mkPage []) = true :=
    shouldSkip_of_mem _ (by decide)
  have e3 : shouldSkipCfg cfgSkip14 3 (mkPage []) = true :=
    shouldSkip_of_mem _ (by decide)
  have e4 : shouldSkipCfg cfgSkip14 4 (mkPage []) = true :=
    shouldSkip_of_mem _ (by decide)
  have e5 : shouldSkipCfg cfgSkip14 5
      (mkPage ("This is a sentence that wraps onto the next".toList)) = false :=
    shouldSkip_mkPage_false _ _ _ (by decide) rfl (by decide) rfl le_rfl
  have e6 : shouldSkipCfg cfgSkip14 6
      (mkPage ("page and ends here. Another full sentence.".toList)) = false :=
    shouldSkip_mkPage_false _ _ _ (by decide) rfl (by decide) rfl le_rfl
  have hrun : extract_sentences_with_page cfgSkip14 pagesC1
      = (processIncluded (processIncluded ⟨[], [], none⟩ 5
          (normalize_line_breaks (page_raw_text cfgSkip14
            (mkPage ("This is a sentence that wraps onto the next".toList))))) 6
          (normalize_line_breaks (page_raw_text cfgSkip14
            (mkPage ("page and ends here. Another full sentence.".toList))))).records := by
    show (runPages cfgSkip14 ⟨[], [], none⟩ 1
      [mkPage [], mkPage [], mkPage [], mkPage [],
       mkPage ("This is a sentence that wraps onto the next".toList),
       mkPage ("page and ends here. Another full sentence.".toList)]).records = _
    rw [runPages, processPage_skip _ e1, runPages, processPage_skip _ e2,
      runPages, processPage_skip _ e3, runPages, processPage_skip _ e4,
      runPages, processPage_incl _ e5, runPages, processPage_incl _ e6, runPages]
  rw [hrun]
  exact ⟨by decide, by decide⟩

/-- C2: the fragment-closure law fails on the code.  After page 1 of
`pagesC2` the pending fragment is `"Alpha beta"` with origin page 1, so
the record `"Alpha beta gamma."` emitted on page 2 began as a carried
fragment from page 1 — yet its start page is 2, not an earlier page,
because `carryover_page` was cleared before emission.  The claimed
equivalence (earlier start page iff began as carried fragment) is
therefore violated. -/
theorem C2_fragment_closure :
    (runPages cfgT ⟨[], [], none⟩ 1 [mkPage ("Alpha beta".toList)]).frag
        = "Alpha beta".toList ∧
    (runPages cfgT ⟨[], [], none⟩ 1 [mkPage ("Alpha beta".toList)]).fragPage
        = some 1 ∧
    extract_sentences_with_page cfgT pagesC2
      = [(2, "Alpha beta gamma.".toList), (2, "Delta.".toList)] := by
  have h1 : shouldSkipCfg cfgT 1 (mkPage ("Alpha beta".toList)) = false :=
    shouldSkip_mkPage_false cfgT 1 _ (by decide) rfl (by decide) rfl le_rfl
  have h2 : shouldSkipCfg cfgT 2 (mkPage ("gamma. Delta.".toList)) = false :=
    shouldSkip_mkPage_false cfgT 2 _ (by decide) rfl (by decide) rfl le_rfl
  refine ⟨?_, ?_, ?_⟩
  · rw [runPages, processPage_incl _ h1, runPages]
    decide
  · rw [runPages, processPage_incl _ h1, runPages]
    decide
  · show (runPages cfgT ⟨[], [], none⟩ 1
      [mkPage ("Alpha beta".toList), mkPage ("gamma. Delta.".toList)]).records = _
    rw [runPages, processPage_incl _ h1, runPages, processPage_incl _ h2, runPages]
    decide

/-- C5: `should_skip_page` is the ordered short-circuit disjunction of
the five independent checks of the spec (so it returns true exactly when
the first matching check fires and false only when all five pass), and
it is independent of the `removeHeaderFooter` extraction flag — checks 2
and 3 always see the full raw page text.  The embedding is a pure
function, so the no-side-effects part holds by construction. -/
theorem C5_should_skip_checks (cfg : FilterConfig) (n : ℕ) (p : Page) :
    (shouldSkipCfg cfg n p = true ↔
      checkForcedSkip cfg n ∨ checkMinLen cfg p ∨ checkCaptions cfg p ∨
        checkImages cfg p ∨ checkRatio cfg p) ∧
    (∀ b : Bool, shouldSkipCfg { cfg with removeHeaderFooter := b } n p
      = shouldSkipCfg cfg n p) := by
  refine ⟨?_, fun b => rfl⟩
  unfold shouldSkipCfg should_skip_page checkForcedSkip checkMinLen checkCaptions
    checkImages checkRatio
  split_ifs with h1 h2 h3 h4 h5 <;>
    simp_all [Nat.one_le_iff_ne_zero]

theorem isTerm_iff_mem (c : Char) :
    isTerm c = true ↔ c ∈ (['.', '!', '?', '…', '。', '？', '！'] : List Char) := by
  simp [isTerm, or_assoc]

theorem normLine_eq_spec (acc line : Str) : normLine acc line = normLineSpec acc line := by
  unfold normLine normLineSpec
  rcases h : (strip line).getLast? with _ | c
  · rw [List.getLast?_eq_none_iff.mp h]
    simp
  · have hne : strip line ≠ [] := by intro e; rw [e] at h; cases h
    simp only [h]
    rw [if_neg hne]
    by_cases hc : c = '-'
    · subst hc
      rw [if_pos rfl, if_pos rfl]
    · rw [if_neg hc, if_neg (show ¬ (some c = some '-') by simp [hc])]
      by_cases ht : isTerm c = true
      · rw [if_pos ht, if_pos ⟨c, rfl, (isTerm_iff_mem c).mp ht⟩]
      · rw [if_neg ht, if_neg ?_]
        rintro ⟨d, hd, hmem⟩
        have hcd : c = d := Option.some_injective _ hd
        exact ht ((isTerm_iff_mem c).mpr (hcd ▸ hmem))

/-- C6: `normalize_line_breaks` processes lines top to bottom exactly as
the spec words it (skip blank lines; hyphen-ending lines joined directly
with the hyphen stripped; non-terminal lines joined with a single space;
terminal lines followed by a newline), and the spec's example holds:
`"Line one-\nLine two."` normalizes to `"Line oneLine two.\n"` and splits
into the single sentence `"Line oneLine two."`. -/
theorem C6_normalize_spec :
    (∀ raw : Str, normalize_line_breaks raw = (splitlines raw).foldl normLineSpec []) ∧
    normalize_line_breaks ("Line one-\nLine two.".toList)
      = "Line oneLine two.\n".toList ∧
    split_into_sentences (normalize_line_breaks ("Line one-\nLine two.".toList))
      = ["Line oneLine two.".toList] := by
  refine ⟨fun raw => ?_, by decide, by decide⟩
  unfold normalize_line_breaks
  have h : normLine = normLineSpec :=
    funext fun acc => funext fun line => normLine_eq_spec acc line
  rw [h]

theorem token_pages_eq_amended (part : Str) :
    token_pages part = token_pages_amended part := by
  rcases e : strip part with _ | ⟨c, r⟩
  · rw [show token_pages part = ∅ by simp [token_pages, e],
      show token_pages_amended part = ∅ by simp [token_pages_amended, e, parseInt]]
  · simp only [token_pages, token_pages_amended, e]
    rw [if_neg (by simp)]

/-- C9 (amended): `parse_skip_pages` is the union over the
comma-separated tokens of the per-token semantics, where a token
containing a hyphen is parsed only as a `lo-hi` inclusive range
(silently ignored when malformed or when `lo > hi`) and a hyphen-free
token as a bare integer (silently ignored when malformed).  A *negative*
bare integer such as `-3` therefore parses to nothing (it takes the
range path and fails), which is where the claim's unqualified
"bare-integer token" wording fails — see the counterexample.  The spec's
example `"1,2,5-7" → {1,2,5,6,7}` holds. -/
theorem C9_parse_amended :
    (∀ s : Str, parse_skip_pages s = parse_skip_pages_amended s) ∧
    parse_skip_pages ("1,2,5-7".toList) = ({1, 2, 5, 6, 7} : Finset ℤ) := by
  refine ⟨fun s => ?_, by decide⟩
  unfold parse_skip_pages parse_skip_pages_amended
  have h : (fun (acc : Finset ℤ) part => acc ∪ token_pages part)
      = fun acc part => acc ∪ token_pages_amended part := by
    funext acc part
    rw [token_pages_eq_amended]
  rw [h]

/-- C9 counterexample: on the input `"-3"` the code returns the empty
set (the token contains a hyphen, is parsed as a range, and `int("")`
fails), while the claim's reading — a bare-integer token yields its
singleton — gives `{-3}`. -/
theorem C9_parse_counterexample :
    parse_skip_pages ("-3".toList) ≠ parse_skip_pages_claim ("-3".toList) := by
  decide

theorem area_foldl (l : List Block)
    (hwf : ∀ b ∈ l, ∀ bb, b.bbox = some bb → bb.x0 ≤ bb.x1 ∧ bb.y0 ≤ bb.y1) :
    ∀ a : ℚ,
      l.foldl (fun acc blk =>
        if blk.typ.getD (-1) = 0 then
          match blk.bbox with
          | some b => acc + max 0 (b.x1 - b.x0) * max 0 (b.y1 - b.y0)
          | none => acc
        else acc) a
      = a + ((l.filter fun b => b.typ.getD (-1) = 0).map fun b =>
          match b.bbox with
          | some bb => (bb.x1 - bb.x0) * (bb.y1 - bb.y0)
          | none => 0).sum := by
  induction l with
  | nil => intro a; simp
  | cons b t ih =>
    intro a
    have hwt : ∀ x ∈ t, ∀ bb, x.bbox = some bb → bb.x0 ≤ bb.x1 ∧ bb.y0 ≤ bb.y1 :=
      fun x hx => hwf x (List.mem_cons_of_mem _ hx)
    rw [List.foldl_cons]
    by_cases h : b.typ.getD (-1) = 0
    · rcases hb : b.bbox with _ | bb
      · rw [if_pos h]
        simp only [hb]
        rw [ih hwt a, List.filter_cons_of_pos (by simp [h]), List.map_cons,
          List.sum_cons]
        simp [hb]
      · rw [if_pos h]
        simp only [hb]
        rcases hwf b (List.mem_cons_self ..) bb hb with ⟨hx, hy⟩
        rw [ih hwt _, List.filter_cons_of_pos (by simp [h]), List.map_cons,
          List.sum_cons]
        simp only [hb, max_eq_right (sub_nonneg.mpr hx), max_eq_right (sub_nonneg.mpr hy)]
        ring
    · rw [if_neg h, ih hwt a, List.filter_cons_of_neg (by simp [h])]

/-- C7: on pages whose bounding boxes are well formed (`x0 ≤ x1`,
`y0 ≤ y1`, as PyMuPDF guarantees), `compute_text_block_area_ratio` is
exactly the spec's description: drop blocks with no bounding box or
lying entirely in the header/footer bands, sum the bounding-box areas of
the remaining text-type blocks, divide by `width * height`; and it
returns 0 whenever the page area is non-positive. -/
theorem C7_area_ratio (page : Page) (hr fr : ℚ)
    (hwf : ∀ b ∈ page.blocks, ∀ bb, b.bbox = some bb → bb.x0 ≤ bb.x1 ∧ bb.y0 ≤ bb.y1) :
    compute_text_block_area_ratio page page.textDict hr fr
        = text_area_ratio_spec page hr fr ∧
    (page.width * page.height ≤ 0 →
      compute_text_block_area_ratio page page.textDict hr fr = 0) := by
  constructor
  · simp only [compute_text_block_area_ratio, text_area_ratio_spec]
    by_cases hA : page.width * page.height ≤ 0
    · rw [if_pos hA, if_pos hA]
    · rw [if_neg hA, if_neg hA]
      congr 1
      have hsub : ∀ b ∈ remove_header_footer_blocks page.textDict hr fr,
          ∀ bb, b.bbox = some bb → bb.x0 ≤ bb.x1 ∧ bb.y0 ≤ bb.y1 :=
        fun b hb => hwf b (List.mem_of_mem_filter hb)
      rw [area_foldl _ hsub 0, zero_add]
      rfl
  · intro h
    simp only [compute_text_block_area_ratio]
    rw [if_pos h]

/-- C7 witness: the ratio equality at a concrete page with a header
block, a body text block, a bounding-box-less block and a non-text
block, plus the zero-area case. -/
theorem C7_area_ratio_witness :
    compute_text_block_area_ratio pageW7 pageW7.textDict (1/20) (1/20)
        = text_area_ratio_spec pageW7 (1/20) (1/20) ∧
    ((mkPage []).width * (mkPage []).height ≤ 0 →
      compute_text_block_area_ratio (mkPage []) (mkPage []).textDict 1 1 = 0) := by
  have hwf : ∀ b ∈ pageW7.blocks, ∀ bb, b.bbox = some bb →
      bb.x0 ≤ bb.x1 ∧ bb.y0 ≤ bb.y1 := by
    intro b hb bb hbb
    have hb2 : b = ⟨some ⟨0, 0, 4, (1 : ℚ)/5⟩, some 0, []⟩ ∨
        b = ⟨some ⟨0, 2, 5, 8⟩, some 0, []⟩ ∨ b = ⟨none, some 0, []⟩ ∨
        b = ⟨some ⟨0, 3, 4, 9⟩, some 1, []⟩ := by
      simpa [pageW7] using hb
    rcases hb2 with rfl | rfl | rfl | rfl
    · simp only [Option.some.injEq] at hbb
      subst hbb
      constructor <;> norm_num
    · simp only [Option.some.injEq] at hbb
      subst hbb
      constructor <;> norm_num
    · cases hbb
    · simp only [Option.some.injEq] at hbb
      subst hbb
      constructor <;> norm_num
  exact ⟨(C7_area_ratio pageW7 (1/20) (1/20) hwf).1,
    (C7_area_ratio (mkPage []) 1 1 (by simp [mkPage])).2⟩

end TxtizePdf
